import Mathlib

/-!
Verification development for the SGRAF image-text matching model
(`src/paddlemm/models/sgraf.py`).

The model is a composition of real-valued tensor operations.  We embed it
shallowly over `ℝ`: a tensor axis of size `n` becomes `Fin n`, a tensor a
function into `ℝ`.  Stochastic layers are modelled in evaluation mode
(dropout is the identity, batch normalization uses its fixed running
statistics), which is the deterministic semantics the claims refer to.
Framework layer parameters (`nn.Linear`, `nn.BatchNorm1D`, …) become
structures of real parameters with an `apply` function giving the layer's
evaluation-mode semantics.  All tensor operations of the source act
independently on each batch element, so the per-sample modules are embedded
per sample; the batched `EncoderSimilarity.forward` keeps its two batch axes.
-/

open scoped BigOperators

noncomputable section

namespace SGRAFModel

/-- A vector of `n` real entries (one tensor axis). -/
abbrev Vec (n : ℕ) : Type := Fin n → ℝ

/-- A matrix with `m` rows and `n` columns. -/
abbrev Mat (m n : ℕ) : Type := Fin m → Fin n → ℝ

/-- Default epsilon of the normalization helpers (`eps=1e-8`). -/
def epsNorm : ℝ := 1e-8

/-- Epsilon of batch normalization (`epsilon=1e-5`, the framework default). -/
def bnEps : ℝ := 1e-5

/-- Modelled from the spec: `l2norm` from `paddlemm/models/layers/normalize.py`
(imported by `sgraf.py` but not under `src/`): divide a vector by its
Euclidean norm plus the epsilon guard. -/
def l2normV {n : ℕ} (eps : ℝ) (x : Vec n) : Vec n :=
  fun i => x i / (Real.sqrt (∑ j, x j ^ 2) + eps)

/-- Modelled from the spec: `l1norm` from `paddlemm/models/layers/normalize.py`
(imported by `sgraf.py` but not under `src/`): divide a vector by the sum of
absolute values plus the epsilon guard. -/
def l1normV {n : ℕ} (eps : ℝ) (x : Vec n) : Vec n :=
  fun i => x i / ((∑ j, |x j|) + eps)

/-- Softmax over one axis (`nn.Softmax`, `F.softmax`). -/
def softmax {n : ℕ} (x : Vec n) : Vec n :=
  fun i => Real.exp (x i) / ∑ j, Real.exp (x j)

/-- Logistic sigmoid (`nn.Sigmoid`). -/
def sigmoid (x : ℝ) : ℝ := 1 / (1 + Real.exp (-x))

/-- Rectified linear unit (`nn.ReLU`). -/
def relu (x : ℝ) : ℝ := max x 0

/-- Leaky rectified linear unit (`nn.LeakyReLU(slope)`). -/
def leakyRelu (slope : ℝ) (x : ℝ) : ℝ := if 0 ≤ x then x else slope * x

/-- Hyperbolic tangent activation (`nn.Tanh`). -/
def tanhR (x : ℝ) : ℝ := Real.tanh x

/-- Parameters of an affine layer `nn.Linear(inD, outD)`. -/
structure Linear (inD outD : ℕ) where
  weight : Mat outD inD
  bias : Vec outD

/-- Evaluation of `nn.Linear`: `x ↦ W x + b`. -/
def Linear.apply {m n : ℕ} (p : Linear m n) (x : Vec m) : Vec n :=
  fun k => (∑ j, p.weight k j * x j) + p.bias k

/-- Parameters of `nn.BatchNorm1D(c)` in evaluation mode: per-channel scale,
shift and fixed running statistics. -/
structure BatchNorm (c : ℕ) where
  gamma : Vec c
  beta : Vec c
  runMean : Vec c
  runVar : Vec c

/-- Evaluation-mode batch normalization of one scalar in channel `ch`. -/
def BatchNorm.apply {c : ℕ} (p : BatchNorm c) (ch : Fin c) (x : ℝ) : ℝ :=
  p.gamma ch * ((x - p.runMean ch) / Real.sqrt (p.runVar ch + bnEps)) + p.beta ch

/-! The self-attention pooling modules `VisualSA` and `TextSA`. -/

/-- Parameters of `VisualSA(embed_dim, dropout_rate, num_region)`:
`embedding_local` is Linear → BatchNorm1D(num_region) → Tanh → Dropout,
`embedding_global` is Linear → BatchNorm1D(embed_dim) → Tanh → Dropout,
`embedding_common` is a Linear to one unit. -/
structure VisualSA (d r : ℕ) where
  embLocalLin : Linear d d
  embLocalBN : BatchNorm r
  embGlobalLin : Linear d d
  embGlobalBN : BatchNorm d
  embCommon : Linear d 1

/-- Embedding of the local regions (`self.embedding_local(local)`), one vector
per region; the BatchNorm channel is the region index. -/
def VisualSA.lEmb {d r : ℕ} (p : VisualSA d r) (loc : Mat r d) : Mat r d :=
  fun j k => tanhR (p.embLocalBN.apply j (p.embLocalLin.apply (loc j) k))

/-- Embedding of the raw global image (`self.embedding_global(raw_global)`);
the BatchNorm channel is the feature index. -/
def VisualSA.gEmb {d r : ℕ} (p : VisualSA d r) (rawGlobal : Vec d) : Vec d :=
  fun k => tanhR (p.embGlobalBN.apply k (p.embGlobalLin.apply rawGlobal k))

/-- The attention weights of `VisualSA.forward`: a softmax over the regions of
the one-unit projection of the elementwise product of the two embeddings. -/
def VisualSA.weights {d r : ℕ} (p : VisualSA d r) (loc : Mat r d)
    (rawGlobal : Vec d) : Vec r :=
  softmax (fun j => p.embCommon.apply (fun k => p.lEmb loc j k * p.gEmb rawGlobal k) 0)

/-- Forward pass of `VisualSA`: the weighted sum of the local region vectors
under the attention weights, followed by `l2norm`. -/
def VisualSA.forward {d r : ℕ} (p : VisualSA d r) (loc : Mat r d)
    (rawGlobal : Vec d) : Vec d :=
  l2normV epsNorm (fun k => ∑ j, p.weights loc rawGlobal j * loc j k)

/-- Parameters of `TextSA(embed_dim, dropout_rate)`: like `VisualSA` but with
no batch normalization inside the two embeddings. -/
structure TextSA (d : ℕ) where
  embLocalLin : Linear d d
  embGlobalLin : Linear d d
  embCommon : Linear d 1

/-- Embedding of the local words (`self.embedding_local(local)`). -/
def TextSA.lEmb {d L : ℕ} (p : TextSA d) (loc : Mat L d) : Mat L d :=
  fun t k => tanhR (p.embLocalLin.apply (loc t) k)

/-- Embedding of the raw global text (`self.embedding_global(raw_global)`). -/
def TextSA.gEmb {d : ℕ} (p : TextSA d) (rawGlobal : Vec d) : Vec d :=
  fun k => tanhR (p.embGlobalLin.apply rawGlobal k)

/-- The attention weights of `TextSA.forward`: a softmax over the words. -/
def TextSA.weights {d L : ℕ} (p : TextSA d) (loc : Mat L d)
    (rawGlobal : Vec d) : Vec L :=
  softmax (fun t => p.embCommon.apply (fun k => p.lEmb loc t k * p.gEmb rawGlobal k) 0)

/-- Forward pass of `TextSA`: the weighted sum of the local word vectors under
the attention weights, followed by `l2norm`. -/
def TextSA.forward {d L : ℕ} (p : TextSA d) (loc : Mat L d)
    (rawGlobal : Vec d) : Vec d :=
  l2normV epsNorm (fun k => ∑ t, p.weights loc rawGlobal t * loc t k)

/-! Graph reasoning and attention filtration over similarity nodes. -/

/-- Parameters of `GraphReasoning(sim_dim)`. -/
structure GraphReasoning (s : ℕ) where
  graphQueryW : Linear s s
  graphKeyW : Linear s s
  simGraphW : Linear s s

/-- The edge matrix `sim_edge` of `GraphReasoning.forward`: a row-wise softmax
(axis `-1`) of the query/key products over all `L` graph nodes. -/
def GraphReasoning.simEdge {s L : ℕ} (p : GraphReasoning s) (simEmb : Mat L s) :
    Mat L L :=
  fun n => softmax (fun m =>
    ∑ k, p.graphQueryW.apply (simEmb n) k * p.graphKeyW.apply (simEmb m) k)

/-- The propagated nodes `bmm(sim_edge, sim_emb)`: each node becomes the
`sim_edge`-weighted combination of the input node embeddings. -/
def GraphReasoning.propagate {s L : ℕ} (p : GraphReasoning s) (simEmb : Mat L s) :
    Mat L s :=
  fun n k => ∑ m, p.simEdge simEmb n m * simEmb m k

/-- Forward pass of `GraphReasoning`: ReLU of a linear map of the propagated
nodes. -/
def GraphReasoning.forward {s L : ℕ} (p : GraphReasoning s) (simEmb : Mat L s) :
    Mat L s :=
  fun n k => relu (p.simGraphW.apply (p.propagate simEmb n) k)

/-- Parameters of `AttentionFiltration(sim_dim)`. -/
structure AttentionFiltration (s : ℕ) where
  attnSimW : Linear s 1
  bn : BatchNorm 1

/-- The filtration weights of `AttentionFiltration.forward`: an `l1norm` over
the nodes of the sigmoid of the batch-normalized one-unit projection. -/
def AttentionFiltration.attnWeights {s L : ℕ} (p : AttentionFiltration s)
    (simEmb : Mat L s) : Vec L :=
  l1normV epsNorm (fun n => sigmoid (p.bn.apply 0 (p.attnSimW.apply (simEmb n) 0)))

/-- Forward pass of `AttentionFiltration`: the filtration-weighted sum of the
nodes, followed by `l2norm`. -/
def AttentionFiltration.forward {s L : ℕ} (p : AttentionFiltration s)
    (simEmb : Mat L s) : Vec s :=
  l2normV epsNorm (fun k => ∑ n, p.attnWeights simEmb n * simEmb n k)

/-! The `SCAN_attention` cross-attention, per batch element (all of its tensor
operations act independently on each batch element). -/

/-- The raw query/context products `bmm(context, queryT)`, indexed
(source, query). -/
def scanAttnRaw {q s d : ℕ} (query : Mat q d) (context : Mat s d) :
    Mat s q :=
  fun sp qp => ∑ k, context sp k * query qp k

/-- The attention weights of `SCAN_attention`: LeakyReLU(0.1), then `l2norm`
along the query axis (`dim 2`), then for each query position a softmax over
the source positions of the weights scaled by `smooth`. -/
def scanAttnWeights {q s d : ℕ} (smooth : ℝ) (query : Mat q d)
    (context : Mat s d) : Mat q s :=
  let attn1 : Mat s q := fun sp qp => leakyRelu (1 / 10) (scanAttnRaw query context sp qp)
  let attn2 : Mat s q := fun sp => l2normV epsNorm (attn1 sp)
  fun qp => softmax (fun sp => attn2 sp qp * smooth)

/-- Forward pass of `SCAN_attention` on one batch element: the weighted context
`bmm(contextT, attnT)` followed by `l2norm` along the feature axis.  The `eps`
argument of the source function is accepted and, as in the source, unused. -/
def SCAN_attention {q s d : ℕ} (smooth eps : ℝ) (query : Mat q d)
    (context : Mat s d) : Mat q d :=
  fun qp => l2normV epsNorm
    (fun k => ∑ sp, context sp k * scanAttnWeights smooth query context qp sp)

/-! The similarity encoder `EncoderSimilarity`. -/

/-- The similarity module selected by `EncoderSimilarity.__init__`: either the
sequential chain of `sgr_step` `GraphReasoning` sublayers (`module_name='SGR'`)
or one `AttentionFiltration` (`module_name='SAF'`). -/
inductive SimModule (s : ℕ) where
  | SGR : List (GraphReasoning s) → SimModule s
  | SAF : AttentionFiltration s → SimModule s

/-- The error message of the `ValueError` raised by
`EncoderSimilarity.__init__` on an unrecognized `module_name`. -/
def invalidModuleMsg : String := "Invalid input of module_name"

/-- The default value of the `module_name` argument of
`EncoderSimilarity.__init__`. -/
def defaultModuleName : String := "AVE"

/-- The module-selection logic of `EncoderSimilarity.__init__`: `'SGR'` builds
`sgr_step` `GraphReasoning` sublayers, `'SAF'` builds one
`AttentionFiltration`, and every other name raises
`ValueError('Invalid input of module_name')`, modelled as `Except.error`. -/
def simModuleInit {s : ℕ} (moduleName : String) (sgrStep : ℕ)
    (mkGraph : ℕ → GraphReasoning s) (mkSaf : AttentionFiltration s) :
    Except String (SimModule s) :=
  if moduleName = "SGR" then
    Except.ok (SimModule.SGR ((List.range sgrStep).map mkGraph))
  else if moduleName = "SAF" then
    Except.ok (SimModule.SAF mkSaf)
  else
    Except.error invalidModuleMsg

/-- Parameters of `EncoderSimilarity(embed_size, sim_dim, module_name,
sgr_step)` after a successful construction: `d` is `embed_size`, `s` is
`sim_dim`, `r` the number of image regions (36 in the source). -/
structure EncoderSimilarity (d s r : ℕ) where
  vGlobalW : VisualSA d r
  tGlobalW : TextSA d
  simTranlocW : Linear d s
  simTrangloW : Linear d s
  simEvalW : Linear s 1
  simModule : SimModule s

/-- The module-selection logic of `SGRAF.__init__`, which constructs its
`EncoderSimilarity` with the given `module_name` and `sgr_step` and therefore
propagates the `ValueError` of `EncoderSimilarity.__init__`. -/
def sgrafSimInit {s : ℕ} (moduleName : String) (sgrStep : ℕ)
    (mkGraph : ℕ → GraphReasoning s) (mkSaf : AttentionFiltration s) :
    Except String (SimModule s) :=
  simModuleInit moduleName sgrStep mkGraph mkSaf

/-- The enhanced global image `img_glo` of `EncoderSimilarity.forward`:
`VisualSA` applied to each image's regions and their mean. -/
def EncoderSimilarity.imgGlo {d s r : ℕ} {nI : ℕ} (p : EncoderSimilarity d s r)
    (imgEmb : Fin nI → Mat r d) (b : Fin nI) : Vec d :=
  p.vGlobalW.forward (imgEmb b) (fun k => (∑ j, imgEmb b j k) / (r : ℝ))

/-- The enhanced global text `cap_glo_i` for caption `j`: `TextSA` applied to
the caption's words and their mean. -/
def EncoderSimilarity.capGlo {d s r : ℕ} {c : ℕ} {L : Fin c → ℕ}
    (p : EncoderSimilarity d s r) (capEmb : (j : Fin c) → Mat (L j) d)
    (j : Fin c) : Vec d :=
  p.tGlobalW.forward (capEmb j) (fun k => (∑ t, capEmb j t k) / (L j : ℝ))

/-- The local alignment `sim_loc` for caption `j` and image `b`: the
`SCAN_attention` context (with `smooth=9.0`), squared difference with the
caption words, linear projection and `l2norm`. -/
def EncoderSimilarity.simLoc {d s r : ℕ} {i c : ℕ} {L : Fin c → ℕ}
    (p : EncoderSimilarity d s r) (imgEmb : Fin i → Mat r d)
    (capEmb : (j : Fin c) → Mat (L j) d) (j : Fin c) (b : Fin i) :
    Mat (L j) s :=
  fun t => l2normV epsNorm (p.simTranlocW.apply
    (fun k => (SCAN_attention 9 epsNorm (capEmb j) (imgEmb b) t k - capEmb j t k) ^ 2))

/-- The global alignment `sim_glo` for caption `j` and image `b`: squared
difference of the two enhanced globals, linear projection and `l2norm`. -/
def EncoderSimilarity.simGlo {d s r : ℕ} {i c : ℕ} {L : Fin c → ℕ}
    (p : EncoderSimilarity d s r) (imgEmb : Fin i → Mat r d)
    (capEmb : (j : Fin c) → Mat (L j) d) (j : Fin c) (b : Fin i) : Vec s :=
  l2normV epsNorm (p.simTrangloW.apply
    (fun k => (p.imgGlo imgEmb b k - p.capGlo capEmb j k) ^ 2))

/-- The concatenated similarity graph `sim_emb` for caption `j` and image `b`:
the global alignment at node `0` followed by the `L j` local alignments. -/
def EncoderSimilarity.simEmb {d s r : ℕ} {i c : ℕ} {L : Fin c → ℕ}
    (p : EncoderSimilarity d s r) (imgEmb : Fin i → Mat r d)
    (capEmb : (j : Fin c) → Mat (L j) d) (j : Fin c) (b : Fin i) :
    Mat (L j + 1) s :=
  Fin.cons (p.simGlo imgEmb capEmb j b) (p.simLoc imgEmb capEmb j b)

/-- Sequential application of the `GraphReasoning` sublayers of the SGR
module, in order. -/
def applySGRChain {s L : ℕ} (mods : List (GraphReasoning s)) (x : Mat L s) :
    Mat L s :=
  mods.foldl (fun m g => g.forward m) x

/-- The final similarity vector `sim_vec` for caption `j` and image `b`: in
SGR mode the node at index `0` of the reasoned graph, in SAF mode the
filtrated aggregate. -/
def EncoderSimilarity.simVecFor {d s r : ℕ} {i c : ℕ} {L : Fin c → ℕ}
    (p : EncoderSimilarity d s r) (imgEmb : Fin i → Mat r d)
    (capEmb : (j : Fin c) → Mat (L j) d) (j : Fin c) (b : Fin i) : Vec s :=
  match p.simModule with
  | SimModule.SGR mods => applySGRChain mods (p.simEmb imgEmb capEmb j b) 0
  | SimModule.SAF f => f.forward (p.simEmb imgEmb capEmb j b)

/-- Forward pass of `EncoderSimilarity`: the `(n_image, n_caption)` similarity
matrix whose `(b, j)` entry is the sigmoid of the one-unit linear evaluation
of the final similarity vector. -/
def EncoderSimilarity.forward {d s r : ℕ} {i c : ℕ} {L : Fin c → ℕ}
    (p : EncoderSimilarity d s r) (imgEmb : Fin i → Mat r d)
    (capEmb : (j : Fin c) → Mat (L j) d) : Mat i c :=
  fun b j => sigmoid (p.simEvalW.apply (p.simVecFor imgEmb capEmb j b) 0)

/-! The image and text encoders. -/

/-- Parameters of `EncoderImage(img_dim, embed_size, image_norm)`. -/
structure EncoderImage (imgDim embed : ℕ) where
  fc : Linear imgDim embed
  imageNorm : Bool

/-- Forward pass of `EncoderImage`: the linear projection of each region,
`l2norm`-normalized when `image_norm` is set. -/
def EncoderImage.forward {m e r : ℕ} (p : EncoderImage m e)
    (images : Mat r m) : Mat r e :=
  fun j => (if p.imageNorm then l2normV epsNorm else id) (p.fc.apply (images j))

/-- Parameters of `EncoderText(vocab_size, word_dim, embed_size, num_layers,
use_bi_gru, image_norm)`.  The embedding table models `nn.Embedding`; the
recurrent maps model the framework primitive `nn.GRU` abstractly as sequence
transducers: in bidirectional mode the output feature axis is the
concatenation of the two directions (width `2 * embed`), in forward mode it
has width `embed`.  Dropout is the identity in evaluation mode. -/
structure EncoderText (vocab wordDim embed : ℕ) where
  embedTable : Fin vocab → Vec wordDim
  useBiGru : Bool
  rnnBi : {n : ℕ} → (Fin n → Vec wordDim) → Fin n → Vec (2 * embed)
  rnnUni : {n : ℕ} → (Fin n → Vec wordDim) → Fin n → Vec embed
  imageNorm : Bool

/-- The word embeddings of `EncoderText.forward` before the final optional
normalization: in bidirectional mode the arithmetic mean of the first and
second halves of the GRU output feature axis. -/
def EncoderText.preNorm {v w e : ℕ} {n : ℕ}
    (p : EncoderText v w e) (tokens : Fin n → Fin v) :
    Fin n → Vec e :=
  let capEmb : Fin n → Vec w := fun t => p.embedTable (tokens t)
  if p.useBiGru then
    fun t k => (p.rnnBi capEmb t ⟨k.val, by omega⟩
      + p.rnnBi capEmb t ⟨e + k.val, by omega⟩) / 2
  else
    p.rnnUni capEmb

/-- Forward pass of `EncoderText`: the word embeddings, `l2norm`-normalized
per word when `image_norm` is set.  The feature width is `embed` in both GRU
modes. -/
def EncoderText.forward {v w e : ℕ} {n : ℕ}
    (p : EncoderText v w e) (tokens : Fin n → Fin v) :
    Fin n → Vec e :=
  fun t => (if p.imageNorm then l2normV epsNorm else id) (p.preNorm tokens t)

/-! The contrastive loss and the full `SGRAF` network. -/

/-- Parameters of `ContrastiveLoss(margin, max_violation)`. -/
structure ContrastiveLoss where
  margin : ℝ
  maxViolation : Bool

/-- Modelled from the spec: `ContrastiveLoss.forward` from
`paddlemm/models/layers/contrastive.py` (imported by `sgraf.py` but not under
`src/`): the contrastive ranking hinge loss over the similarity matrix, with
margin, diagonal (matched-pair) scores as anchors, and hardest-negative
reduction when `max_violation` is set. -/
def ContrastiveLoss.forward {n : ℕ} (p : ContrastiveLoss) (scores : Mat n n) :
    ℝ :=
  let costS : Mat n n := fun i j =>
    if i = j then 0 else max 0 (p.margin + scores i j - scores i i)
  let costIm : Mat n n := fun i j =>
    if i = j then 0 else max 0 (p.margin + scores i j - scores j j)
  if p.maxViolation then
    (∑ i, Finset.univ.fold max 0 (fun j => costS i j))
      + ∑ j, Finset.univ.fold max 0 (fun i => costIm i j)
  else
    (∑ i, ∑ j, costS i j) + ∑ i, ∑ j, costIm i j

/-- Parameters of the full `SGRAF` network. -/
structure SGRAF (imgDim embed s r vocab wordDim : ℕ) where
  imgEnc : EncoderImage imgDim embed
  txtEnc : EncoderText vocab wordDim embed
  simEnc : EncoderSimilarity embed s r
  criterion : ContrastiveLoss

/-- A training batch: `n` images of `r` regions and `n` captions whose lengths
are the type-level family `L` (the `text_len` entry of the source batch). -/
structure Batch (n r imgDim vocab : ℕ) (L : Fin n → ℕ) where
  imageFeat : Fin n → Mat r imgDim
  textToken : (j : Fin n) → Fin (L j) → Fin vocab

/-- The staged `SGRAF.forward_emb`: the image and caption embeddings of a
batch (the caption lengths travel in the type of the second component). -/
def SGRAF.forwardEmb {m e s r v w n : ℕ} {L : Fin n → ℕ}
    (g : SGRAF m e s r v w) (batch : Batch n r m v L) :
    (Fin n → Mat r e) × ((j : Fin n) → Mat (L j) e) :=
  (fun b => g.imgEnc.forward (batch.imageFeat b),
   fun j => g.txtEnc.forward (batch.textToken j))

/-- The staged `SGRAF.forward_sim`: the similarity matrix of a pair of
embedding batches. -/
def SGRAF.forwardSim {m e s r v w n : ℕ} {L : Fin n → ℕ}
    (g : SGRAF m e s r v w)
    (embs : (Fin n → Mat r e) × ((j : Fin n) → Mat (L j) e)) :
    Mat n n :=
  g.simEnc.forward embs.1 embs.2

/-- The composed `SGRAF.forward`: encode the batch, compute the similarity
matrix, and return the contrastive ranking loss (the body repeats the
encoding steps, as the source does). -/
def SGRAF.forward {m e s r v w n : ℕ} {L : Fin n → ℕ}
    (g : SGRAF m e s r v w) (batch : Batch n r m v L) : ℝ :=
  let imgEmbs := fun b => g.imgEnc.forward (batch.imageFeat b)
  let capEmbs := fun j => g.txtEnc.forward (batch.textToken j)
  let sims := g.simEnc.forward imgEmbs capEmbs
  g.criterion.forward sims

/-! Concrete all-zero instances, used by the witness theorems. -/

/-- The all-zero matrix. -/
def zeroMat {m n : ℕ} : Mat m n := fun _ _ => 0

/-- The all-zero vector. -/
def zeroVec {n : ℕ} : Vec n := fun _ => 0

/-- A linear layer with zero weight and bias. -/
def zeroLinear {m n : ℕ} : Linear m n := ⟨zeroMat, zeroVec⟩

/-- A batch normalization layer with zero parameters and statistics. -/
def zeroBN {c : ℕ} : BatchNorm c := ⟨zeroVec, zeroVec, zeroVec, zeroVec⟩

/-- A `GraphReasoning` layer with zero parameters. -/
def zeroGraph {s : ℕ} : GraphReasoning s := ⟨zeroLinear, zeroLinear, zeroLinear⟩

/-- An `AttentionFiltration` layer with zero parameters. -/
def zeroSAF {s : ℕ} : AttentionFiltration s := ⟨zeroLinear, zeroBN⟩

/-- A `VisualSA` module with zero parameters. -/
def zeroVisualSA {d r : ℕ} : VisualSA d r :=
  ⟨zeroLinear, zeroBN, zeroLinear, zeroBN, zeroLinear⟩

/-- A `TextSA` module with zero parameters. -/
def zeroTextSA {d : ℕ} : TextSA d := ⟨zeroLinear, zeroLinear, zeroLinear⟩

/-- A tiny `EncoderSimilarity` in SAF mode with zero parameters. -/
def exampleEncSAF : EncoderSimilarity 1 1 1 :=
  ⟨zeroVisualSA, zeroTextSA, zeroLinear, zeroLinear, zeroLinear,
   SimModule.SAF zeroSAF⟩

/-- A tiny `EncoderSimilarity` in SGR mode with one zero sublayer. -/
def exampleEncSGR : EncoderSimilarity 1 1 1 :=
  ⟨zeroVisualSA, zeroTextSA, zeroLinear, zeroLinear, zeroLinear,
   SimModule.SGR [zeroGraph]⟩

/-- A tiny bidirectional `EncoderText` with zero parameters. -/
def exampleText : EncoderText 1 1 1 :=
  ⟨fun _ => zeroVec, true, fun _ _ => zeroVec, fun _ _ => zeroVec, true⟩

/-- A tiny forward-only `EncoderText` with zero parameters. -/
def exampleTextUni : EncoderText 1 1 1 :=
  ⟨fun _ => zeroVec, false, fun _ _ => zeroVec, fun _ _ => zeroVec, false⟩

/-- A tiny full `SGRAF` network with zero parameters. -/
def exampleSGRAF : SGRAF 1 1 1 1 1 1 :=
  ⟨⟨zeroLinear, true⟩, exampleText, exampleEncSAF, ⟨0, false⟩⟩

/-- A tiny all-zero batch with one image and one caption of length one. -/
def exampleBatch : Batch 1 1 1 1 (fun _ => 1) :=
  ⟨fun _ => zeroMat, fun _ _ => 0⟩

/-- A tiny `EncoderImage` with zero parameters and normalization on. -/
def exampleImgEnc : EncoderImage 1 1 := ⟨zeroLinear, true⟩

/-- A `ContrastiveLoss` with zero margin and sum reduction. -/
def exampleCriterion : ContrastiveLoss := ⟨0, false⟩

/-! Continuity of a family of layers: for a parameter space `α`, a family of
layers indexed by `α` whose every raw parameter tensor depends continuously
on `α`.  Instantiating `α` with a product of parameter tensors (or with `ℝ`,
a path through parameter space) expresses continuity of the network in its
learned parameters; instantiating the input families instead expresses
continuity in the data. -/

/-- A family of `nn.Linear` layers with continuous weight and bias. -/
structure LinearCF {α : Type} [TopologicalSpace α] {m n : ℕ}
    (W : α → Linear m n) : Prop where
  cw : Continuous fun a => (W a).weight
  cb : Continuous fun a => (W a).bias

/-- A family of evaluation-mode `nn.BatchNorm1D` layers with continuous
parameters and statistics, and nonnegative running variances (as the
framework maintains them). -/
structure BatchNormCF {α : Type} [TopologicalSpace α] {c : ℕ}
    (p : α → BatchNorm c) : Prop where
  cg : Continuous fun a => (p a).gamma
  cb : Continuous fun a => (p a).beta
  cm : Continuous fun a => (p a).runMean
  cv : Continuous fun a => (p a).runVar
  vnn : ∀ a ch, 0 ≤ (p a).runVar ch

/-- A family of `VisualSA` modules with continuous parameters. -/
structure VisualSACF {α : Type} [TopologicalSpace α] {d r : ℕ}
    (p : α → VisualSA d r) : Prop where
  ll : LinearCF fun a => (p a).embLocalLin
  lbn : BatchNormCF fun a => (p a).embLocalBN
  gl : LinearCF fun a => (p a).embGlobalLin
  gbn : BatchNormCF fun a => (p a).embGlobalBN
  cm : LinearCF fun a => (p a).embCommon

/-- A family of `TextSA` modules with continuous parameters. -/
structure TextSACF {α : Type} [TopologicalSpace α] {d : ℕ}
    (p : α → TextSA d) : Prop where
  ll : LinearCF fun a => (p a).embLocalLin
  gl : LinearCF fun a => (p a).embGlobalLin
  cm : LinearCF fun a => (p a).embCommon

/-- A family of `GraphReasoning` layers with continuous parameters. -/
structure GraphCF {α : Type} [TopologicalSpace α] {s : ℕ}
    (p : α → GraphReasoning s) : Prop where
  qw : LinearCF fun a => (p a).graphQueryW
  kw : LinearCF fun a => (p a).graphKeyW
  gw : LinearCF fun a => (p a).simGraphW

/-- A family of `AttentionFiltration` modules with continuous parameters. -/
structure SAFCF {α : Type} [TopologicalSpace α] {s : ℕ}
    (p : α → AttentionFiltration s) : Prop where
  aw : LinearCF fun a => (p a).attnSimW
  bn : BatchNormCF fun a => (p a).bn

/-- A family of `EncoderSimilarity` modules whose shared sublayers all have
continuous parameters (the similarity module is constrained separately). -/
structure EncSimCF {α : Type} [TopologicalSpace α] {d s r : ℕ}
    (p : α → EncoderSimilarity d s r) : Prop where
  vg : VisualSACF fun a => (p a).vGlobalW
  tg : TextSACF fun a => (p a).tGlobalW
  tl : LinearCF fun a => (p a).simTranlocW
  tgl : LinearCF fun a => (p a).simTrangloW
  ev : LinearCF fun a => (p a).simEvalW

/-! Basic facts about the primitives. -/

theorem sigmoid_pos (x : ℝ) : 0 < sigmoid x := by
  unfold sigmoid
  positivity

theorem sigmoid_lt_one (x : ℝ) : sigmoid x < 1 := by
  unfold sigmoid
  rw [div_lt_one (by positivity)]
  linarith [Real.exp_pos (-x)]

theorem softmax_nonneg {n : ℕ} (x : Vec n) (i : Fin n) : 0 ≤ softmax x i := by
  unfold softmax
  exact div_nonneg (Real.exp_pos _).le
    (Finset.sum_nonneg fun j _ => (Real.exp_pos _).le)

theorem expSum_pos {n : ℕ} (hn : 0 < n) (x : Vec n) : 0 < ∑ j, Real.exp (x j) := by
  have : Nonempty (Fin n) := ⟨⟨0, hn⟩⟩
  exact Finset.sum_pos (fun j _ => Real.exp_pos _) Finset.univ_nonempty

theorem softmax_sum_one {n : ℕ} (hn : 0 < n) (x : Vec n) :
    ∑ i, softmax x i = 1 := by
  unfold softmax
  rw [← Finset.sum_div]
  exact div_self (expSum_pos hn x).ne'

theorem sqSum_nonneg {n : ℕ} (x : Vec n) : 0 ≤ ∑ j, x j ^ 2 :=
  Finset.sum_nonneg fun j _ => sq_nonneg _

theorem epsNorm_pos : 0 < epsNorm := by norm_num [epsNorm]

theorem l2normV_congr {n : ℕ} (eps : ℝ) {x y : Vec n} (h : ∀ i, x i = y i) :
    l2normV eps x = l2normV eps y := by
  rw [funext h]

/-- Unfolding of the `SCAN_attention` attention weights: a softmax, over the
source positions, of the smoothed and query-normalized leaky products. -/
theorem scanAttnWeights_def {q s d : ℕ} (smooth : ℝ) (query : Mat q d)
    (context : Mat s d) (qp : Fin q) :
    scanAttnWeights smooth query context qp
      = softmax (fun sp => l2normV epsNorm
          (fun q2 => leakyRelu (1 / 10) (scanAttnRaw query context sp q2)) qp * smooth) :=
  rfl

/-- Unfolding of `SCAN_attention`: the `l2norm` of the attention-weighted
context vectors. -/
theorem SCAN_attention_def {q s d : ℕ} (smooth eps : ℝ) (query : Mat q d)
    (context : Mat s d) (qp : Fin q) :
    SCAN_attention smooth eps query context qp
      = l2normV epsNorm
          (fun k => ∑ sp, context sp k * scanAttnWeights smooth query context qp sp) :=
  rfl

theorem bnEps_pos : 0 < bnEps := by norm_num [bnEps]

theorem relu_continuous : Continuous relu :=
  continuous_id.max continuous_const

theorem leakyRelu_continuous (slope : ℝ) : Continuous (leakyRelu slope) := by
  have hrw : leakyRelu slope
      = fun x : ℝ => if (0 : ℝ) ≤ x then x else slope * x := rfl
  rw [hrw]
  exact Continuous.if_le continuous_id (continuous_const.mul continuous_id)
    continuous_const continuous_id (fun x hx => by rw [← hx]; ring)

theorem sigmoid_continuous : Continuous sigmoid := by
  have hden : ∀ x : ℝ, 1 + Real.exp (-x) ≠ 0 := fun x => by positivity
  exact continuous_const.div
    (continuous_const.add (Real.continuous_exp.comp continuous_neg)) hden

theorem sigmoid_differentiable : Differentiable ℝ sigmoid := by
  have hden : ∀ x : ℝ, 1 + Real.exp (-x) ≠ 0 := fun x => by positivity
  exact (differentiable_const 1).div
    ((differentiable_const 1).add (Real.differentiable_exp.comp differentiable_id.neg))
    hden

theorem tanhR_continuous : Continuous tanhR := by
  have hrw : tanhR = fun x => Real.sinh x / Real.cosh x := by
    funext x
    exact Real.tanh_eq_sinh_div_cosh x
  rw [hrw]
  exact Real.continuous_sinh.div Real.continuous_cosh fun x => (Real.cosh_pos x).ne'

theorem softmax_continuous {n : ℕ} : Continuous fun x : Vec n => softmax x := by
  apply continuous_pi
  intro i
  exact (Real.continuous_exp.comp (continuous_apply i)).div
    (continuous_finset_sum _ fun j _ => Real.continuous_exp.comp (continuous_apply j))
    (fun x => (expSum_pos i.pos x).ne')

theorem l2normV_continuous {n : ℕ} : Continuous fun x : Vec n => l2normV epsNorm x := by
  apply continuous_pi
  intro i
  refine (continuous_apply i).div ?_ ?_
  · exact (Real.continuous_sqrt.comp
      (continuous_finset_sum _ fun j _ => (continuous_apply j).pow 2)).add
      continuous_const
  · intro x
    exact (add_pos_of_nonneg_of_pos (Real.sqrt_nonneg _) epsNorm_pos).ne'

theorem l1normV_continuous {n : ℕ} : Continuous fun x : Vec n => l1normV epsNorm x := by
  apply continuous_pi
  intro i
  refine (continuous_apply i).div ?_ ?_
  · exact (continuous_finset_sum _ fun j _ => (continuous_apply j).abs).add
      continuous_const
  · intro x
    exact (add_pos_of_nonneg_of_pos
      (Finset.sum_nonneg fun j _ => abs_nonneg _) epsNorm_pos).ne'

theorem linear_apply_continuous {m n : ℕ} (p : Linear m n) :
    Continuous fun x : Vec m => p.apply x := by
  apply continuous_pi
  intro k
  exact (continuous_finset_sum _ fun j _ =>
    continuous_const.mul (continuous_apply j)).add continuous_const

theorem batchNorm_apply_continuous {c : ℕ} (p : BatchNorm c) (ch : Fin c) :
    Continuous fun x : ℝ => p.apply ch x := by
  unfold BatchNorm.apply
  exact (continuous_const.mul
    ((continuous_id.sub continuous_const).div_const _)).add continuous_const

theorem contFoldMax {ι β : Type} [TopologicalSpace β] (s : Finset ι)
    (f : ι → β → ℝ) (hf : ∀ i, Continuous (f i)) :
    Continuous fun b => s.fold max (0 : ℝ) (fun i => f i b) := by
  classical
  induction s using Finset.induction_on with
  | empty =>
    simpa [Finset.fold_empty] using (continuous_const : Continuous fun _ : β => (0 : ℝ))
  | insert ha ih =>
    simp only [Finset.fold_insert ha]
    exact (hf _).max ih

theorem contScApp {m n : ℕ} (i : Fin m) (j : Fin n) :
    Continuous fun sc : Mat m n => sc i j :=
  (continuous_apply j).comp (continuous_apply i)

theorem contrastive_continuous {n : ℕ} (p : ContrastiveLoss) :
    Continuous fun sc : Mat n n => p.forward sc := by
  have hS : ∀ i j : Fin n, Continuous fun sc : Mat n n =>
      if i = j then (0 : ℝ) else max 0 (p.margin + sc i j - sc i i) := by
    intro i j
    rcases eq_or_ne i j with hij | hij
    · simp only [hij, if_pos rfl]
      exact continuous_const
    · simp only [if_neg hij]
      exact continuous_const.max
        ((continuous_const.add (contScApp i j)).sub (contScApp i i))
  have hI : ∀ i j : Fin n, Continuous fun sc : Mat n n =>
      if i = j then (0 : ℝ) else max 0 (p.margin + sc i j - sc j j) := by
    intro i j
    rcases eq_or_ne i j with hij | hij
    · simp only [hij, if_pos rfl]
      exact continuous_const
    · simp only [if_neg hij]
      exact continuous_const.max
        ((continuous_const.add (contScApp i j)).sub (contScApp j j))
  unfold ContrastiveLoss.forward
  cases p.maxViolation
  · simp only [Bool.false_eq_true, if_false]
    exact (continuous_finset_sum _ fun i _ =>
        continuous_finset_sum _ fun j _ => hS i j).add
      (continuous_finset_sum _ fun i _ => continuous_finset_sum _ fun j _ => hI i j)
  · simp only [if_true]
    exact (continuous_finset_sum _ fun i _ =>
        contFoldMax _ (fun j sc => if i = j then (0 : ℝ)
          else max 0 (p.margin + sc i j - sc i i)) fun j => hS i j).add
      (continuous_finset_sum _ fun j _ =>
        contFoldMax _ (fun i sc => if i = j then (0 : ℝ)
          else max 0 (p.margin + sc i j - sc j j)) fun i => hI i j)

section ContinuityFamilies

variable {α : Type} [TopologicalSpace α]

theorem contApp {ι : Type} {β : ι → Type} [∀ i, TopologicalSpace (β i)]
    {F : α → ∀ i, β i} (hF : Continuous F) (i : ι) :
    Continuous fun a => F a i :=
  (continuous_apply i).comp hF

theorem contLinearApplyF {m n : ℕ} {W : α → Linear m n} {x : α → Vec m}
    (hW : LinearCF W) (hx : Continuous x) :
    Continuous fun a => (W a).apply (x a) := by
  apply continuous_pi
  intro k
  simp only [Linear.apply]
  exact (continuous_finset_sum _ fun j _ =>
    (contApp (contApp hW.cw k) j).mul (contApp hx j)).add (contApp hW.cb k)

theorem contBNApplyF {c : ℕ} {p : α → BatchNorm c} {x : α → ℝ}
    (hp : BatchNormCF p) (ch : Fin c) (hx : Continuous x) :
    Continuous fun a => (p a).apply ch (x a) := by
  simp only [BatchNorm.apply]
  have hden : Continuous fun a => Real.sqrt ((p a).runVar ch + bnEps) :=
    Real.continuous_sqrt.comp ((contApp hp.cv ch).add continuous_const)
  have hne : ∀ a, Real.sqrt ((p a).runVar ch + bnEps) ≠ 0 := fun a =>
    (Real.sqrt_pos.mpr (by
      have h1 := hp.vnn a ch
      have h2 := bnEps_pos
      linarith)).ne'
  exact ((contApp hp.cg ch).mul
    ((hx.sub (contApp hp.cm ch)).div hden hne)).add (contApp hp.cb ch)

theorem contVisualSAF {d r : ℕ} {p : α → VisualSA d r} {loc : α → Mat r d}
    {g : α → Vec d} (hp : VisualSACF p) (hloc : Continuous loc)
    (hg : Continuous g) :
    Continuous fun a => (p a).forward (loc a) (g a) := by
  have hle : ∀ j k, Continuous fun a =>
      tanhR ((p a).embLocalBN.apply j ((p a).embLocalLin.apply (loc a j) k)) :=
    fun j k => tanhR_continuous.comp (contBNApplyF hp.lbn j
      (contApp (contLinearApplyF hp.ll (contApp hloc j)) k))
  have hge : ∀ k, Continuous fun a =>
      tanhR ((p a).embGlobalBN.apply k ((p a).embGlobalLin.apply (g a) k)) :=
    fun k => tanhR_continuous.comp (contBNApplyF hp.gbn k
      (contApp (contLinearApplyF hp.gl hg) k))
  have hw : Continuous fun a => (p a).weights (loc a) (g a) := by
    simp only [VisualSA.weights, VisualSA.lEmb, VisualSA.gEmb]
    exact softmax_continuous.comp (continuous_pi fun j =>
      contApp (contLinearApplyF hp.cm (continuous_pi fun k =>
        (hle j k).mul (hge k))) 0)
  simp only [VisualSA.forward]
  exact l2normV_continuous.comp (continuous_pi fun k =>
    continuous_finset_sum _ fun j _ =>
      (contApp hw j).mul (contApp (contApp hloc j) k))

theorem contTextSAF {d L : ℕ} {p : α → TextSA d} {loc : α → Mat L d}
    {g : α → Vec d} (hp : TextSACF p) (hloc : Continuous loc)
    (hg : Continuous g) :
    Continuous fun a => (p a).forward (loc a) (g a) := by
  have hle : ∀ t k, Continuous fun a =>
      tanhR ((p a).embLocalLin.apply (loc a t) k) :=
    fun t k => tanhR_continuous.comp
      (contApp (contLinearApplyF hp.ll (contApp hloc t)) k)
  have hge : ∀ k, Continuous fun a =>
      tanhR ((p a).embGlobalLin.apply (g a) k) :=
    fun k => tanhR_continuous.comp (contApp (contLinearApplyF hp.gl hg) k)
  have hw : Continuous fun a => (p a).weights (loc a) (g a) := by
    simp only [TextSA.weights, TextSA.lEmb, TextSA.gEmb]
    exact softmax_continuous.comp (continuous_pi fun t =>
      contApp (contLinearApplyF hp.cm (continuous_pi fun k =>
        (hle t k).mul (hge k))) 0)
  simp only [TextSA.forward]
  exact l2normV_continuous.comp (continuous_pi fun k =>
    continuous_finset_sum _ fun t _ =>
      (contApp hw t).mul (contApp (contApp hloc t) k))

theorem contGraphF {s L : ℕ} {p : α → GraphReasoning s} {x : α → Mat L s}
    (hp : GraphCF p) (hx : Continuous x) :
    Continuous fun a => (p a).forward (x a) := by
  have hedge : ∀ nd, Continuous fun a => (p a).simEdge (x a) nd := by
    intro nd
    simp only [GraphReasoning.simEdge]
    exact softmax_continuous.comp (continuous_pi fun m2 =>
      continuous_finset_sum _ fun k _ =>
        (contApp (contLinearApplyF hp.qw (contApp hx nd)) k).mul
          (contApp (contLinearApplyF hp.kw (contApp hx m2)) k))
  have hprop : ∀ nd, Continuous fun a => (p a).propagate (x a) nd := by
    intro nd
    apply continuous_pi
    intro k
    simp only [GraphReasoning.propagate]
    exact continuous_finset_sum _ fun m2 _ =>
      (contApp (hedge nd) m2).mul (contApp (contApp hx m2) k)
  apply continuous_pi
  intro nd
  apply continuous_pi
  intro k
  simp only [GraphReasoning.forward]
  exact relu_continuous.comp (contApp (contLinearApplyF hp.gw (hprop nd)) k)

theorem contChainF {s L : ℕ} :
    ∀ {l : ℕ} {ms : α → Fin l → GraphReasoning s} {x : α → Mat L s},
      (∀ q2, GraphCF fun a => ms a q2) → Continuous x →
      Continuous fun a => applySGRChain (List.ofFn (ms a)) (x a) := by
  intro l
  induction l with
  | zero =>
    intro ms x _ hx
    simpa [applySGRChain, List.ofFn_zero] using hx
  | succ l2 ih =>
    intro ms x hms hx
    have hrw : (fun a => applySGRChain (List.ofFn (ms a)) (x a))
        = fun a => applySGRChain (List.ofFn fun q2 => ms a q2.succ)
            ((ms a 0).forward (x a)) := by
      funext a
      rw [List.ofFn_succ]
      rfl
    rw [hrw]
    exact ih (fun q2 => hms q2.succ) (contGraphF (hms 0) hx)

theorem contSAFF {s L : ℕ} {p : α → AttentionFiltration s} {x : α → Mat L s}
    (hp : SAFCF p) (hx : Continuous x) :
    Continuous fun a => (p a).forward (x a) := by
  have hwts : Continuous fun a => (p a).attnWeights (x a) := by
    simp only [AttentionFiltration.attnWeights]
    exact l1normV_continuous.comp (continuous_pi fun nd =>
      sigmoid_continuous.comp (contBNApplyF hp.bn 0
        (contApp (contLinearApplyF hp.aw (contApp hx nd)) 0)))
  simp only [AttentionFiltration.forward]
  exact l2normV_continuous.comp (continuous_pi fun k =>
    continuous_finset_sum _ fun nd _ =>
      (contApp hwts nd).mul (contApp (contApp hx nd) k))

theorem contSCANF {q s d : ℕ} (smooth eps : ℝ) {query : α → Mat q d}
    {context : α → Mat s d} (hq : Continuous query) (hc : Continuous context) :
    Continuous fun a => SCAN_attention smooth eps (query a) (context a) := by
  have hin : ∀ sp, Continuous fun a =>
      fun q2 => leakyRelu (1 / 10) (scanAttnRaw (query a) (context a) sp q2) := by
    intro sp
    apply continuous_pi
    intro q2
    simp only [scanAttnRaw]
    exact (leakyRelu_continuous _).comp (continuous_finset_sum _ fun k _ =>
      (contApp (contApp hc sp) k).mul (contApp (contApp hq q2) k))
  have hw : ∀ qp, Continuous fun a =>
      scanAttnWeights smooth (query a) (context a) qp := by
    intro qp
    simp only [scanAttnWeights_def]
    exact softmax_continuous.comp (continuous_pi fun sp =>
      (contApp (l2normV_continuous.comp (hin sp)) qp).mul continuous_const)
  apply continuous_pi
  intro qp
  simp only [SCAN_attention_def]
  exact l2normV_continuous.comp (continuous_pi fun k =>
    continuous_finset_sum _ fun sp _ =>
      (contApp (contApp hc sp) k).mul (contApp (hw qp) sp))

theorem contImgGloF {d s r n : ℕ} {enc : α → EncoderSimilarity d s r}
    {img : α → Fin n → Mat r d} (hv : VisualSACF fun a => (enc a).vGlobalW)
    (him : Continuous img) (b : Fin n) :
    Continuous fun a => EncoderSimilarity.imgGlo (enc a) (img a) b := by
  simp only [EncoderSimilarity.imgGlo]
  exact contVisualSAF hv (contApp him b)
    (continuous_pi fun k => (continuous_finset_sum _ fun j _ =>
      contApp (contApp (contApp him b) j) k).div_const _)

theorem contCapGloF {d s r c2 : ℕ} {L : Fin c2 → ℕ}
    {enc : α → EncoderSimilarity d s r}
    {cap : α → (j : Fin c2) → Mat (L j) d}
    (ht : TextSACF fun a => (enc a).tGlobalW) (hcap : Continuous cap)
    (j : Fin c2) :
    Continuous fun a => EncoderSimilarity.capGlo (enc a) (cap a) j := by
  simp only [EncoderSimilarity.capGlo]
  exact contTextSAF ht (contApp hcap j)
    (continuous_pi fun k => (continuous_finset_sum _ fun t _ =>
      contApp (contApp (contApp hcap j) t) k).div_const _)

theorem contSimGloF {d s r n c2 : ℕ} {L : Fin c2 → ℕ}
    {enc : α → EncoderSimilarity d s r} {img : α → Fin n → Mat r d}
    {cap : α → (j : Fin c2) → Mat (L j) d} (hbase : EncSimCF enc)
    (him : Continuous img) (hcap : Continuous cap) (j : Fin c2) (b : Fin n) :
    Continuous fun a => EncoderSimilarity.simGlo (enc a) (img a) (cap a) j b := by
  simp only [EncoderSimilarity.simGlo]
  exact l2normV_continuous.comp (contLinearApplyF hbase.tgl (continuous_pi fun k =>
    ((contApp (contImgGloF hbase.vg him b) k).sub
      (contApp (contCapGloF hbase.tg hcap j) k)).pow 2))

theorem contSimLocF {d s r n c2 : ℕ} {L : Fin c2 → ℕ}
    {enc : α → EncoderSimilarity d s r} {img : α → Fin n → Mat r d}
    {cap : α → (j : Fin c2) → Mat (L j) d} (hbase : EncSimCF enc)
    (him : Continuous img) (hcap : Continuous cap) (j : Fin c2) (b : Fin n)
    (t : Fin (L j)) :
    Continuous fun a =>
      EncoderSimilarity.simLoc (enc a) (img a) (cap a) j b t := by
  simp only [EncoderSimilarity.simLoc]
  exact l2normV_continuous.comp (contLinearApplyF hbase.tl (continuous_pi fun k =>
    ((contApp (contApp (contSCANF 9 epsNorm (contApp hcap j) (contApp him b)) t) k).sub
      (contApp (contApp (contApp hcap j) t) k)).pow 2))

theorem contSimEmbF {d s r n c2 : ℕ} {L : Fin c2 → ℕ}
    {enc : α → EncoderSimilarity d s r} {img : α → Fin n → Mat r d}
    {cap : α → (j : Fin c2) → Mat (L j) d} (hbase : EncSimCF enc)
    (him : Continuous img) (hcap : Continuous cap) (j : Fin c2) (b : Fin n) :
    Continuous fun a =>
      EncoderSimilarity.simEmb (enc a) (img a) (cap a) j b := by
  apply continuous_pi
  intro t
  refine Fin.cases ?_ ?_ t
  · simp only [EncoderSimilarity.simEmb, Fin.cons_zero]
    exact contSimGloF hbase him hcap j b
  · intro t2
    simp only [EncoderSimilarity.simEmb, Fin.cons_succ]
    exact contSimLocF hbase him hcap j b t2

theorem contSimVecSAFF {d s r n c2 : ℕ} {L : Fin c2 → ℕ}
    {enc : α → EncoderSimilarity d s r} {saf : α → AttentionFiltration s}
    {img : α → Fin n → Mat r d} {cap : α → (j : Fin c2) → Mat (L j) d}
    (hbase : EncSimCF enc) (hsaf : SAFCF saf)
    (hmod : ∀ a, (enc a).simModule = SimModule.SAF (saf a))
    (him : Continuous img) (hcap : Continuous cap) (j : Fin c2) (b : Fin n) :
    Continuous fun a =>
      EncoderSimilarity.simVecFor (enc a) (img a) (cap a) j b := by
  have hrw : (fun a => EncoderSimilarity.simVecFor (enc a) (img a) (cap a) j b)
      = fun a => (saf a).forward
          (EncoderSimilarity.simEmb (enc a) (img a) (cap a) j b) := by
    funext a
    unfold EncoderSimilarity.simVecFor
    rw [hmod a]
  rw [hrw]
  exact contSAFF hsaf (contSimEmbF hbase him hcap j b)

theorem contSimVecSGRF {d s r n c2 l : ℕ} {L : Fin c2 → ℕ}
    {enc : α → EncoderSimilarity d s r} {ms : α → Fin l → GraphReasoning s}
    {img : α → Fin n → Mat r d} {cap : α → (j : Fin c2) → Mat (L j) d}
    (hbase : EncSimCF enc) (hms : ∀ q2, GraphCF fun a => ms a q2)
    (hmod : ∀ a, (enc a).simModule = SimModule.SGR (List.ofFn (ms a)))
    (him : Continuous img) (hcap : Continuous cap) (j : Fin c2) (b : Fin n) :
    Continuous fun a =>
      EncoderSimilarity.simVecFor (enc a) (img a) (cap a) j b := by
  have hrw : (fun a => EncoderSimilarity.simVecFor (enc a) (img a) (cap a) j b)
      = fun a => applySGRChain (List.ofFn (ms a))
          (EncoderSimilarity.simEmb (enc a) (img a) (cap a) j b) 0 := by
    funext a
    unfold EncoderSimilarity.simVecFor
    rw [hmod a]
  rw [hrw]
  exact contApp (contChainF hms (contSimEmbF hbase him hcap j b)) 0

theorem contEncForwardSAFF {d s r n c2 : ℕ} {L : Fin c2 → ℕ}
    {enc : α → EncoderSimilarity d s r} {saf : α → AttentionFiltration s}
    {img : α → Fin n → Mat r d} {cap : α → (j : Fin c2) → Mat (L j) d}
    (hbase : EncSimCF enc) (hsaf : SAFCF saf)
    (hmod : ∀ a, (enc a).simModule = SimModule.SAF (saf a))
    (him : Continuous img) (hcap : Continuous cap) :
    Continuous fun a =>
      EncoderSimilarity.forward (enc a) (img a) (cap a) := by
  apply continuous_pi
  intro b
  apply continuous_pi
  intro j
  simp only [EncoderSimilarity.forward]
  exact sigmoid_continuous.comp (contApp (contLinearApplyF hbase.ev
    (contSimVecSAFF hbase hsaf hmod him hcap j b)) 0)

theorem contEncForwardSGRF {d s r n c2 l : ℕ} {L : Fin c2 → ℕ}
    {enc : α → EncoderSimilarity d s r} {ms : α → Fin l → GraphReasoning s}
    {img : α → Fin n → Mat r d} {cap : α → (j : Fin c2) → Mat (L j) d}
    (hbase : EncSimCF enc) (hms : ∀ q2, GraphCF fun a => ms a q2)
    (hmod : ∀ a, (enc a).simModule = SimModule.SGR (List.ofFn (ms a)))
    (him : Continuous img) (hcap : Continuous cap) :
    Continuous fun a =>
      EncoderSimilarity.forward (enc a) (img a) (cap a) := by
  apply continuous_pi
  intro b
  apply continuous_pi
  intro j
  simp only [EncoderSimilarity.forward]
  exact sigmoid_continuous.comp (contApp (contLinearApplyF hbase.ev
    (contSimVecSGRF hbase hms hmod him hcap j b)) 0)

theorem contEncImageF {e d r n : ℕ} {pim : α → EncoderImage e d}
    {images : α → Fin n → Mat r e} (hfc : LinearCF fun a => (pim a).fc)
    (fl : Bool) (hfl : ∀ a, (pim a).imageNorm = fl) (him : Continuous images) :
    Continuous fun a => fun b => (pim a).forward (images a b) := by
  apply continuous_pi
  intro b
  apply continuous_pi
  intro jr
  have hrw : ∀ a, (pim a).forward (images a b) jr
      = (if fl then l2normV epsNorm else id) ((pim a).fc.apply (images a b jr)) := by
    intro a
    simp only [EncoderImage.forward, hfl a]
  simp only [hrw]
  have hlin : Continuous fun a => (pim a).fc.apply (images a b jr) :=
    contLinearApplyF hfc (contApp (contApp him b) jr)
  cases fl
  · simpa using hlin
  · simpa using l2normV_continuous.comp hlin

end ContinuityFamilies

/-- The Euclidean norm of an `l2normV eps`-normalized vector is
`N / (N + eps)` where `N` is the norm of the input: for positive `eps` the
output norm falls short of `1` exactly by the epsilon guard. -/
theorem l2normV_norm {n : ℕ} (eps : ℝ) (heps : 0 < eps) (x : Vec n) :
    Real.sqrt (∑ i, l2normV eps x i ^ 2)
      = Real.sqrt (∑ j, x j ^ 2) / (Real.sqrt (∑ j, x j ^ 2) + eps) := by
  have hS : 0 ≤ ∑ j, x j ^ 2 := sqSum_nonneg x
  have hN : 0 ≤ Real.sqrt (∑ j, x j ^ 2) := Real.sqrt_nonneg _
  have hc : 0 < Real.sqrt (∑ j, x j ^ 2) + eps := by linarith
  have hsum : ∑ i, l2normV eps x i ^ 2
      = (Real.sqrt (∑ j, x j ^ 2) / (Real.sqrt (∑ j, x j ^ 2) + eps)) ^ 2 := by
    unfold l2normV
    rw [div_pow, Real.sq_sqrt hS]
    simp only [div_pow]
    rw [← Finset.sum_div]
  rw [hsum, Real.sqrt_sq (by positivity)]

/-- C2: in `SCAN_attention`, for every query/context input the attention
weights produced by the softmax over source positions are nonnegative and sum
to 1 for each query position, and every row of the returned weighted context
is the `l2norm` of the corresponding convex combination of context vectors,
whose Euclidean norm is `N / (N + eps)` (unit norm up to the eps guard). -/
theorem scan_attention_c2 {q s d : ℕ} (smooth eps : ℝ) (hs : 0 < s)
    (query : Mat q d) (context : Mat s d) (qp : Fin q) :
    (∀ sp, 0 ≤ scanAttnWeights smooth query context qp sp)
    ∧ (∑ sp, scanAttnWeights smooth query context qp sp = 1)
    ∧ SCAN_attention smooth eps query context qp
        = l2normV epsNorm
            (fun k => ∑ sp, scanAttnWeights smooth query context qp sp * context sp k)
    ∧ Real.sqrt (∑ k, SCAN_attention smooth eps query context qp k ^ 2)
        = Real.sqrt (∑ k, (∑ sp, scanAttnWeights smooth query context qp sp * context sp k) ^ 2)
          / (Real.sqrt (∑ k, (∑ sp, scanAttnWeights smooth query context qp sp * context sp k) ^ 2)
              + epsNorm) := by
  have h3 : SCAN_attention smooth eps query context qp
      = l2normV epsNorm
          (fun k => ∑ sp, scanAttnWeights smooth query context qp sp * context sp k) := by
    rw [SCAN_attention_def]
    exact l2normV_congr epsNorm fun k =>
      Finset.sum_congr rfl fun sp _ => mul_comm _ _
  have h1 : ∀ sp, 0 ≤ scanAttnWeights smooth query context qp sp := by
    intro sp
    rw [scanAttnWeights_def]
    exact softmax_nonneg _ sp
  have h2 : ∑ sp, scanAttnWeights smooth query context qp sp = 1 := by
    simp only [scanAttnWeights_def]
    exact softmax_sum_one hs _
  refine ⟨h1, h2, h3, ?_⟩
  rw [h3]
  exact l2normV_norm epsNorm epsNorm_pos _

/-- Witness for C2 at a concrete input: one query position, one source
position, one feature, all-zero query and context. -/
theorem scan_attention_c2_witness :
    (∀ sp : Fin 1, 0 ≤ scanAttnWeights 9 (zeroMat : Mat 1 1) (zeroMat : Mat 1 1) 0 sp)
    ∧ (∑ sp : Fin 1, scanAttnWeights 9 (zeroMat : Mat 1 1) (zeroMat : Mat 1 1) 0 sp = 1)
    ∧ SCAN_attention 9 epsNorm (zeroMat : Mat 1 1) (zeroMat : Mat 1 1) 0
        = l2normV epsNorm
            (fun k : Fin 1 => ∑ sp : Fin 1,
              scanAttnWeights 9 (zeroMat : Mat 1 1) (zeroMat : Mat 1 1) 0 sp
                * (zeroMat : Mat 1 1) sp k)
    ∧ Real.sqrt (∑ k : Fin 1,
          SCAN_attention 9 epsNorm (zeroMat : Mat 1 1) (zeroMat : Mat 1 1) 0 k ^ 2)
        = Real.sqrt (∑ k : Fin 1, (∑ sp : Fin 1,
              scanAttnWeights 9 (zeroMat : Mat 1 1) (zeroMat : Mat 1 1) 0 sp
                * (zeroMat : Mat 1 1) sp k) ^ 2)
          / (Real.sqrt (∑ k : Fin 1, (∑ sp : Fin 1,
                scanAttnWeights 9 (zeroMat : Mat 1 1) (zeroMat : Mat 1 1) 0 sp
                  * (zeroMat : Mat 1 1) sp k) ^ 2)
              + epsNorm) :=
  scan_attention_c2 9 epsNorm Nat.one_pos zeroMat zeroMat 0

/-- C3: in `GraphReasoning.forward`, the edge matrix `sim_edge` is
row-stochastic (entries nonnegative, each row sums to 1 over the graph
nodes), every propagated node is the corresponding convex combination of the
input node embeddings, and every entry of the returned `sim_sgr` is
nonnegative because the final activation is ReLU. -/
theorem graph_reasoning_c3 {s L : ℕ} (hL : 0 < L) (p : GraphReasoning s)
    (x : Mat L s) :
    (∀ n m, 0 ≤ p.simEdge x n m)
    ∧ (∀ n, ∑ m, p.simEdge x n m = 1)
    ∧ (∀ n k, p.propagate x n k = ∑ m, p.simEdge x n m * x m k)
    ∧ (∀ n k, p.forward x n k = relu (p.simGraphW.apply (p.propagate x n) k))
    ∧ (∀ n k, 0 ≤ p.forward x n k) :=
  ⟨fun _ m => softmax_nonneg _ m,
   fun _ => softmax_sum_one hL _,
   fun _ _ => rfl,
   fun _ _ => rfl,
   fun _ _ => le_max_right _ _⟩

/-- Witness for C3 at a concrete input: one node, one feature, zero
parameters and embeddings. -/
theorem graph_reasoning_c3_witness :
    (∀ n m : Fin 1, 0 ≤ (zeroGraph : GraphReasoning 1).simEdge (zeroMat : Mat 1 1) n m)
    ∧ (∀ n : Fin 1, ∑ m : Fin 1,
        (zeroGraph : GraphReasoning 1).simEdge (zeroMat : Mat 1 1) n m = 1)
    ∧ (∀ n k : Fin 1, (zeroGraph : GraphReasoning 1).propagate (zeroMat : Mat 1 1) n k
        = ∑ m : Fin 1, (zeroGraph : GraphReasoning 1).simEdge (zeroMat : Mat 1 1) n m
            * (zeroMat : Mat 1 1) m k)
    ∧ (∀ n k : Fin 1, (zeroGraph : GraphReasoning 1).forward (zeroMat : Mat 1 1) n k
        = relu ((zeroGraph : GraphReasoning 1).simGraphW.apply
            ((zeroGraph : GraphReasoning 1).propagate (zeroMat : Mat 1 1) n) k))
    ∧ (∀ n k : Fin 1, 0 ≤ (zeroGraph : GraphReasoning 1).forward (zeroMat : Mat 1 1) n k) :=
  graph_reasoning_c3 Nat.one_pos zeroGraph zeroMat

/-- C4: the global representation returned by `VisualSA.forward` (and
likewise `TextSA.forward`) is the sum of the local feature vectors weighted
by softmax attention weights (nonnegative, summing to 1) followed by `l2norm`
normalization, so its Euclidean norm is `N / (N + eps)` — unit norm up to the
eps guard. -/
theorem self_attention_pooling_c4 {d r L : ℕ} (hr : 0 < r) (hL : 0 < L)
    (pv : VisualSA d r) (locV : Mat r d) (gV : Vec d)
    (pt : TextSA d) (locT : Mat L d) (gT : Vec d) :
    (∀ j, 0 ≤ pv.weights locV gV j)
    ∧ (∑ j, pv.weights locV gV j = 1)
    ∧ pv.forward locV gV
        = l2normV epsNorm (fun k => ∑ j, pv.weights locV gV j * locV j k)
    ∧ Real.sqrt (∑ k, pv.forward locV gV k ^ 2)
        = Real.sqrt (∑ k, (∑ j, pv.weights locV gV j * locV j k) ^ 2)
          / (Real.sqrt (∑ k, (∑ j, pv.weights locV gV j * locV j k) ^ 2) + epsNorm)
    ∧ (∀ t, 0 ≤ pt.weights locT gT t)
    ∧ (∑ t, pt.weights locT gT t = 1)
    ∧ pt.forward locT gT
        = l2normV epsNorm (fun k => ∑ t, pt.weights locT gT t * locT t k)
    ∧ Real.sqrt (∑ k, pt.forward locT gT k ^ 2)
        = Real.sqrt (∑ k, (∑ t, pt.weights locT gT t * locT t k) ^ 2)
          / (Real.sqrt (∑ k, (∑ t, pt.weights locT gT t * locT t k) ^ 2) + epsNorm) :=
  ⟨fun j => softmax_nonneg _ j,
   softmax_sum_one hr _,
   rfl,
   l2normV_norm epsNorm epsNorm_pos _,
   fun t => softmax_nonneg _ t,
   softmax_sum_one hL _,
   rfl,
   l2normV_norm epsNorm epsNorm_pos _⟩

/-- Witness for C4 at a concrete input: one region, one word, one feature,
zero parameters and features. -/
theorem self_attention_pooling_c4_witness :
    (∀ j : Fin 1, 0 ≤ (zeroVisualSA : VisualSA 1 1).weights (zeroMat : Mat 1 1) (zeroVec : Vec 1) j)
    ∧ (∑ j : Fin 1, (zeroVisualSA : VisualSA 1 1).weights (zeroMat : Mat 1 1) (zeroVec : Vec 1) j = 1)
    ∧ (zeroVisualSA : VisualSA 1 1).forward (zeroMat : Mat 1 1) (zeroVec : Vec 1)
        = l2normV epsNorm
            (fun k : Fin 1 => ∑ j : Fin 1,
              (zeroVisualSA : VisualSA 1 1).weights (zeroMat : Mat 1 1) (zeroVec : Vec 1) j
                * (zeroMat : Mat 1 1) j k)
    ∧ Real.sqrt (∑ k : Fin 1,
          (zeroVisualSA : VisualSA 1 1).forward (zeroMat : Mat 1 1) (zeroVec : Vec 1) k ^ 2)
        = Real.sqrt (∑ k : Fin 1, (∑ j : Fin 1,
              (zeroVisualSA : VisualSA 1 1).weights (zeroMat : Mat 1 1) (zeroVec : Vec 1) j
                * (zeroMat : Mat 1 1) j k) ^ 2)
          / (Real.sqrt (∑ k : Fin 1, (∑ j : Fin 1,
                (zeroVisualSA : VisualSA 1 1).weights (zeroMat : Mat 1 1) (zeroVec : Vec 1) j
                  * (zeroMat : Mat 1 1) j k) ^ 2)
              + epsNorm)
    ∧ (∀ t : Fin 1, 0 ≤ (zeroTextSA : TextSA 1).weights (zeroMat : Mat 1 1) (zeroVec : Vec 1) t)
    ∧ (∑ t : Fin 1, (zeroTextSA : TextSA 1).weights (zeroMat : Mat 1 1) (zeroVec : Vec 1) t = 1)
    ∧ (zeroTextSA : TextSA 1).forward (zeroMat : Mat 1 1) (zeroVec : Vec 1)
        = l2normV epsNorm
            (fun k : Fin 1 => ∑ t : Fin 1,
              (zeroTextSA : TextSA 1).weights (zeroMat : Mat 1 1) (zeroVec : Vec 1) t
                * (zeroMat : Mat 1 1) t k)
    ∧ Real.sqrt (∑ k : Fin 1,
          (zeroTextSA : TextSA 1).forward (zeroMat : Mat 1 1) (zeroVec : Vec 1) k ^ 2)
        = Real.sqrt (∑ k : Fin 1, (∑ t : Fin 1,
              (zeroTextSA : TextSA 1).weights (zeroMat : Mat 1 1) (zeroVec : Vec 1) t
                * (zeroMat : Mat 1 1) t k) ^ 2)
          / (Real.sqrt (∑ k : Fin 1, (∑ t : Fin 1,
                (zeroTextSA : TextSA 1).weights (zeroMat : Mat 1 1) (zeroVec : Vec 1) t
                  * (zeroMat : Mat 1 1) t k) ^ 2)
              + epsNorm) :=
  self_attention_pooling_c4 Nat.one_pos Nat.one_pos zeroVisualSA zeroMat zeroVec
    zeroTextSA zeroMat zeroVec

/-- C1: for every batch of image embeddings and caption embeddings with valid
caption lengths, `EncoderSimilarity.forward` returns a similarity matrix of
shape `(n_image, n_caption)` (the type `Mat i c` of the result) whose every
entry is the sigmoid of the one-unit linear evaluation of the final
similarity vector, hence strictly between 0 and 1. -/
theorem encoder_similarity_c1 {d s r i c : ℕ} {L : Fin c → ℕ}
    (p : EncoderSimilarity d s r) (imgEmb : Fin i → Mat r d)
    (capEmb : (j : Fin c) → Mat (L j) d) (hvalid : ∀ j, 0 < L j)
    (b : Fin i) (j : Fin c) :
    p.forward imgEmb capEmb b j
        = sigmoid (p.simEvalW.apply (p.simVecFor imgEmb capEmb j b) 0)
    ∧ 0 < p.forward imgEmb capEmb b j
    ∧ p.forward imgEmb capEmb b j < 1 :=
  ⟨rfl, sigmoid_pos _, sigmoid_lt_one _⟩

/-- Concrete image-embedding batch: one image with one region and one
feature, all zero. -/
def exampleImgEmb : Fin 1 → Mat 1 1 := fun _ => zeroMat

/-- Concrete caption-embedding batch: one caption of length one with one
feature, all zero. -/
def exampleCapEmb : (j : Fin 1) → Mat 1 1 := fun _ => zeroMat

/-- Witness for C1 at a concrete input: one image, one caption of length one,
zero parameters (SAF mode). -/
theorem encoder_similarity_c1_witness :
    @EncoderSimilarity.forward 1 1 1 1 1 (fun _ => 1) exampleEncSAF
        exampleImgEmb exampleCapEmb 0 0
      = sigmoid (exampleEncSAF.simEvalW.apply
          (@EncoderSimilarity.simVecFor 1 1 1 1 1 (fun _ => 1) exampleEncSAF
            exampleImgEmb exampleCapEmb 0 0) 0)
    ∧ 0 < @EncoderSimilarity.forward 1 1 1 1 1 (fun _ => 1) exampleEncSAF
        exampleImgEmb exampleCapEmb 0 0
    ∧ @EncoderSimilarity.forward 1 1 1 1 1 (fun _ => 1) exampleEncSAF
        exampleImgEmb exampleCapEmb 0 0 < 1 :=
  encoder_similarity_c1 exampleEncSAF exampleImgEmb exampleCapEmb
    (fun _ => Nat.one_pos) 0 0

/-- C9: in SGR mode, for every caption the final similarity vector is the
node at index 0 of the graph after the sequential applications of the
`GraphReasoning` sublayers to the concatenation [global alignment; local
alignments] — the reasoned descendant of the global-alignment node, not an
aggregate over all nodes; node 0 of the initial graph is the global
alignment, the later nodes the local ones, and the SGR chain built by
`__init__` for `sgr_step` has exactly `sgr_step` sublayers. -/
theorem sgr_mode_c9 {d s r i c : ℕ} {L : Fin c → ℕ}
    (p : EncoderSimilarity d s r) (mods : List (GraphReasoning s))
    (hmod : p.simModule = SimModule.SGR mods)
    (imgEmb : Fin i → Mat r d) (capEmb : (j : Fin c) → Mat (L j) d)
    (j : Fin c) (b : Fin i) (st : ℕ) (mk : ℕ → GraphReasoning s)
    (saf : AttentionFiltration s) :
    p.simVecFor imgEmb capEmb j b
        = applySGRChain mods (p.simEmb imgEmb capEmb j b) 0
    ∧ p.simEmb imgEmb capEmb j b 0 = p.simGlo imgEmb capEmb j b
    ∧ (∀ t : Fin (L j),
        p.simEmb imgEmb capEmb j b t.succ = p.simLoc imgEmb capEmb j b t)
    ∧ simModuleInit ("SGR") st mk saf
        = Except.ok (SimModule.SGR ((List.range st).map mk))
    ∧ ((List.range st).map mk).length = st := by
  refine ⟨?_, ?_, ?_, ?_, ?_⟩
  · unfold EncoderSimilarity.simVecFor
    rw [hmod]
  · exact Fin.cons_zero _ _
  · intro t
    exact Fin.cons_succ _ _ t
  · unfold simModuleInit
    rw [if_pos rfl]
  · simp

/-- Witness for C9 at a concrete input: a zero-parameter SGR-mode encoder
with one sublayer, one image, one caption of length one. -/
theorem sgr_mode_c9_witness :
    @EncoderSimilarity.simVecFor 1 1 1 1 1 (fun _ => 1) exampleEncSGR
        exampleImgEmb exampleCapEmb 0 0
      = applySGRChain [zeroGraph]
          (@EncoderSimilarity.simEmb 1 1 1 1 1 (fun _ => 1) exampleEncSGR
            exampleImgEmb exampleCapEmb 0 0) 0
    ∧ @EncoderSimilarity.simEmb 1 1 1 1 1 (fun _ => 1) exampleEncSGR
        exampleImgEmb exampleCapEmb 0 0 0
      = @EncoderSimilarity.simGlo 1 1 1 1 1 (fun _ => 1) exampleEncSGR
          exampleImgEmb exampleCapEmb 0 0
    ∧ (∀ t : Fin 1,
        @EncoderSimilarity.simEmb 1 1 1 1 1 (fun _ => 1) exampleEncSGR
            exampleImgEmb exampleCapEmb 0 0 t.succ
          = @EncoderSimilarity.simLoc 1 1 1 1 1 (fun _ => 1) exampleEncSGR
              exampleImgEmb exampleCapEmb 0 0 t)
    ∧ simModuleInit ("SGR") 3 (fun _ => (zeroGraph : GraphReasoning 1)) zeroSAF
        = Except.ok (SimModule.SGR ((List.range 3).map fun _ => (zeroGraph : GraphReasoning 1)))
    ∧ ((List.range 3).map fun _ => (zeroGraph : GraphReasoning 1)).length = 3 :=
  sgr_mode_c9 exampleEncSGR [zeroGraph] rfl exampleImgEmb exampleCapEmb 0 0 3
    (fun _ => zeroGraph) zeroSAF

/-- C5: `SGRAF.forward` returns exactly the contrastive ranking loss applied
to the similarity matrix of the encoded inputs: the composed pipeline equals
`criterion(forward_sim(forward_emb(batch)))`. -/
theorem sgraf_pipeline_c5 {m e s r v w n : ℕ} {L : Fin n → ℕ}
    (g : SGRAF m e s r v w) (batch : Batch n r m v L) :
    g.forward batch = g.criterion.forward (g.forwardSim (g.forwardEmb batch)) :=
  rfl

/-- Concrete token batch: one caption of length one over a one-word
vocabulary. -/
def exampleTokens : Fin 1 → Fin 1 := fun _ => 0

/-- C6: `EncoderText.forward` returns word embeddings of feature width
`embed_size` in both GRU modes (the result type `Vec e`): in bidirectional
mode each pre-normalization feature is the arithmetic mean of the forward and
backward halves of the GRU output, with `image_norm` each word embedding is
additionally `l2norm`-normalized, and in forward mode the GRU output is used
directly. -/
theorem encoder_text_c6 {v w e n : ℕ} (p : EncoderText v w e)
    (tokens : Fin n → Fin v) (t : Fin n)
    (hbi : p.useBiGru = true) (hnorm : p.imageNorm = true)
    (p2 : EncoderText v w e) (hun : p2.useBiGru = false) :
    (∀ k : Fin e, p.preNorm tokens t k
        = (p.rnnBi (fun u => p.embedTable (tokens u)) t ⟨k.val, by omega⟩
            + p.rnnBi (fun u => p.embedTable (tokens u)) t ⟨e + k.val, by omega⟩) / 2)
    ∧ p.forward tokens t = l2normV epsNorm (p.preNorm tokens t)
    ∧ p2.preNorm tokens t = p2.rnnUni (fun u => p2.embedTable (tokens u)) t := by
  refine ⟨?_, ?_, ?_⟩
  · intro k
    simp only [EncoderText.preNorm, hbi, if_true]
  · simp only [EncoderText.forward, hnorm, if_true]
  · simp [EncoderText.preNorm, hun]

/-- Witness for C6 at a concrete input: one word, one-dimensional
embeddings, the zero bidirectional and forward-only text encoders. -/
theorem encoder_text_c6_witness :
    (∀ k : Fin 1, exampleText.preNorm exampleTokens 0 k
        = (exampleText.rnnBi (fun u => exampleText.embedTable (exampleTokens u)) 0 ⟨k.val, by omega⟩
            + exampleText.rnnBi (fun u => exampleText.embedTable (exampleTokens u)) 0 ⟨1 + k.val, by omega⟩) / 2)
    ∧ exampleText.forward exampleTokens 0 = l2normV epsNorm (exampleText.preNorm exampleTokens 0)
    ∧ exampleTextUni.preNorm exampleTokens 0
        = exampleTextUni.rnnUni (fun u => exampleTextUni.embedTable (exampleTokens u)) 0 :=
  encoder_text_c6 exampleText exampleTokens 0 rfl rfl exampleTextUni rfl

/-- C8: constructing `EncoderSimilarity` (and therefore `SGRAF`) with any
`module_name` other than `'SGR'` or `'SAF'` raises
`ValueError('Invalid input of module_name')`; in particular the documented
default `module_name='AVE'` is rejected, so no AVE similarity mode exists at
the public interface. -/
theorem module_name_validation_c8 {s : ℕ} (st : ℕ) (mk : ℕ → GraphReasoning s)
    (saf : AttentionFiltration s) (nm : String)
    (h1 : nm ≠ "SGR") (h2 : nm ≠ "SAF") :
    simModuleInit nm st mk saf = Except.error invalidModuleMsg
    ∧ simModuleInit (s := s) defaultModuleName st mk saf = Except.error invalidModuleMsg
    ∧ sgrafSimInit (s := s) defaultModuleName st mk saf = Except.error invalidModuleMsg := by
  refine ⟨?_, ?_, ?_⟩
  · unfold simModuleInit
    rw [if_neg h1, if_neg h2]
  · unfold simModuleInit defaultModuleName
    rw [if_neg (by decide), if_neg (by decide)]
  · unfold sgrafSimInit simModuleInit defaultModuleName
    rw [if_neg (by decide), if_neg (by decide)]

/-- Witness for C8 at a concrete input: the default name `'AVE'` with
`sgr_step = 3` and zero sublayer makers. -/
theorem module_name_validation_c8_witness :
    simModuleInit (s := 1) "AVE" 3 (fun _ => zeroGraph) zeroSAF
        = Except.error invalidModuleMsg
    ∧ simModuleInit (s := 1) defaultModuleName 3 (fun _ => zeroGraph) zeroSAF
        = Except.error invalidModuleMsg
    ∧ sgrafSimInit (s := 1) defaultModuleName 3 (fun _ => zeroGraph) zeroSAF
        = Except.error invalidModuleMsg :=
  module_name_validation_c8 3 (fun _ => zeroGraph) zeroSAF ("AVE") (by decide) (by decide)

/-- C10: with the stochastic layers inactive (the evaluation-mode semantics
embedded here: dropout is the identity, batch normalization uses fixed
statistics), the pipeline is deterministic — two runs of
`EncoderSimilarity.forward` and of `SGRAF.forward` on identical inputs and
identical parameters produce identical outputs. -/
theorem deterministic_c10 {d s r i c : ℕ} {L : Fin c → ℕ}
    {m e s2 r2 v w n : ℕ} {M : Fin n → ℕ}
    (p1 p2 : EncoderSimilarity d s r) (img1 img2 : Fin i → Mat r d)
    (cap1 cap2 : (j : Fin c) → Mat (L j) d)
    (g1 g2 : SGRAF m e s2 r2 v w) (b1 b2 : Batch n r2 m v M)
    (hp : p1 = p2) (hi : img1 = img2) (hc : cap1 = cap2)
    (hg : g1 = g2) (hb : b1 = b2) :
    p1.forward img1 cap1 = p2.forward img2 cap2
    ∧ g1.forward b1 = g2.forward b2 := by
  subst hp; subst hi; subst hc; subst hg; subst hb
  exact ⟨rfl, rfl⟩

/-- Witness for C10 at a concrete input: the zero-parameter encoder and
network on the all-zero batch, run twice. -/
theorem deterministic_c10_witness :
    @EncoderSimilarity.forward 1 1 1 1 1 (fun _ => 1) exampleEncSAF
        exampleImgEmb exampleCapEmb
      = @EncoderSimilarity.forward 1 1 1 1 1 (fun _ => 1) exampleEncSAF
          exampleImgEmb exampleCapEmb
    ∧ exampleSGRAF.forward exampleBatch = exampleSGRAF.forward exampleBatch :=
  deterministic_c10 exampleEncSAF exampleEncSAF exampleImgEmb exampleImgEmb
    exampleCapEmb exampleCapEmb exampleSGRAF exampleSGRAF exampleBatch exampleBatch
    rfl rfl rfl rfl rfl

/-- C7, counterexample: the forward pass is not a composition of everywhere
differentiable operations — the `relu` activation used by
`GraphReasoning.forward` is not differentiable at `0`, so the loss is not
differentiable with respect to every parameter at every point. -/
theorem relu_not_differentiable_c7_cex : ¬ DifferentiableAt ℝ relu 0 := by
  intro h
  have habs : (fun x : ℝ => |x|) = fun x : ℝ => 2 * relu x - x := by
    funext x
    unfold relu
    rcases le_or_lt 0 x with hx | hx
    · rw [max_eq_left hx, abs_of_nonneg hx]; ring
    · rw [max_eq_right hx.le, abs_of_neg hx]; ring
  have hdiff : DifferentiableAt ℝ (fun x : ℝ => |x|) 0 := by
    rw [habs]
    exact (h.const_mul 2).sub differentiableAt_id
  exact not_differentiableAt_abs_zero hdiff

/-- A zero linear layer is a continuous constant family. -/
theorem zeroLinear_CF {α : Type} [TopologicalSpace α] {m n : ℕ} :
    LinearCF (fun _ : α => (zeroLinear : Linear m n)) :=
  ⟨continuous_const, continuous_const⟩

/-- A zero batch-normalization layer is a continuous constant family with
nonnegative running variance. -/
theorem zeroBN_CF {α : Type} [TopologicalSpace α] {c : ℕ} :
    BatchNormCF (fun _ : α => (zeroBN : BatchNorm c)) :=
  ⟨continuous_const, continuous_const, continuous_const, continuous_const,
   fun _ _ => le_refl 0⟩

/-- The SAF-mode example encoder is a continuous constant family. -/
theorem exampleEncSAF_CF {α : Type} [TopologicalSpace α] :
    EncSimCF (fun _ : α => exampleEncSAF) :=
  ⟨⟨zeroLinear_CF, zeroBN_CF, zeroLinear_CF, zeroBN_CF, zeroLinear_CF⟩,
   ⟨zeroLinear_CF, zeroLinear_CF, zeroLinear_CF⟩,
   zeroLinear_CF, zeroLinear_CF, zeroLinear_CF⟩

/-- The SGR-mode example encoder is a continuous constant family. -/
theorem exampleEncSGR_CF {α : Type} [TopologicalSpace α] :
    EncSimCF (fun _ : α => exampleEncSGR) :=
  ⟨⟨zeroLinear_CF, zeroBN_CF, zeroLinear_CF, zeroBN_CF, zeroLinear_CF⟩,
   ⟨zeroLinear_CF, zeroLinear_CF, zeroLinear_CF⟩,
   zeroLinear_CF, zeroLinear_CF, zeroLinear_CF⟩

/-- C7, amended: every tensor operation composed in the forward pass is
continuous — ReLU, LeakyReLU(0.1), sigmoid (moreover differentiable), tanh,
softmax, the eps-guarded `l2norm` and `l1norm`, evaluation-mode batch
normalization, the affine layers, and the contrastive hinge loss — and
consequently the loss is continuous along every continuous family of
parameters and inputs (with the framework invariant of nonnegative batch-norm
running variances), in both SGR and SAF mode, through the image encoder, the
self-attention pooling, SCAN attention, the graph/filtration modules and the
criterion.  (The text encoder's GRU is a framework primitive embedded
abstractly; its output enters as the continuous caption-embedding family.)
The pipeline is therefore continuous but, by the ReLU counterexample, not
everywhere differentiable in its parameters. -/
theorem continuous_ops_c7_amended
    {α : Type} [TopologicalSpace α]
    {d s r e n l : ℕ} {L : Fin n → ℕ}
    (encS : α → EncoderSimilarity d s r) (saf : α → AttentionFiltration s)
    (encG : α → EncoderSimilarity d s r) (ms : α → Fin l → GraphReasoning s)
    (pim : α → EncoderImage e d) (fl : Bool)
    (images : α → Fin n → Mat r e) (cap : α → (j : Fin n) → Mat (L j) d)
    (cr : ContrastiveLoss)
    (hS : EncSimCF encS) (hsaf : SAFCF saf)
    (hmodS : ∀ a, (encS a).simModule = SimModule.SAF (saf a))
    (hG : EncSimCF encG) (hms : ∀ q2, GraphCF fun a => ms a q2)
    (hmodG : ∀ a, (encG a).simModule = SimModule.SGR (List.ofFn (ms a)))
    (hfc : LinearCF fun a => (pim a).fc) (hfl : ∀ a, (pim a).imageNorm = fl)
    (him : Continuous images) (hcap : Continuous cap) :
    Continuous relu
    ∧ Continuous (leakyRelu (1 / 10))
    ∧ Differentiable ℝ sigmoid
    ∧ Continuous sigmoid
    ∧ Continuous tanhR
    ∧ (∀ k : ℕ, Continuous fun x : Vec k => softmax x)
    ∧ (∀ k : ℕ, Continuous fun x : Vec k => l2normV epsNorm x)
    ∧ (∀ k : ℕ, Continuous fun x : Vec k => l1normV epsNorm x)
    ∧ (∀ m2 k : ℕ, ∀ p : Linear m2 k, Continuous fun x : Vec m2 => p.apply x)
    ∧ (∀ c2 : ℕ, ∀ p : BatchNorm c2, ∀ ch : Fin c2,
        Continuous fun x : ℝ => p.apply ch x)
    ∧ (∀ k : ℕ, ∀ p : ContrastiveLoss, Continuous fun sc : Mat k k => p.forward sc)
    ∧ Continuous (fun a => cr.forward (EncoderSimilarity.forward (encS a)
        (fun b => (pim a).forward (images a b)) (cap a)))
    ∧ Continuous (fun a => cr.forward (EncoderSimilarity.forward (encG a)
        (fun b => (pim a).forward (images a b)) (cap a))) := by
  refine ⟨relu_continuous, leakyRelu_continuous _, sigmoid_differentiable,
    sigmoid_continuous, tanhR_continuous,
    fun k => softmax_continuous, fun k => l2normV_continuous,
    fun k => l1normV_continuous, fun m2 k p => linear_apply_continuous p,
    fun c2 p ch => batchNorm_apply_continuous p ch,
    fun k p => contrastive_continuous p, ?_, ?_⟩
  · exact (contrastive_continuous cr).comp
      (contEncForwardSAFF hS hsaf hmodS (contEncImageF hfc fl hfl him) hcap)
  · exact (contrastive_continuous cr).comp
      (contEncForwardSGRF hG hms hmodG (contEncImageF hfc fl hfl him) hcap)

/-- Witness for the amended C7 at a concrete input: the constant
zero-parameter families over `α = ℝ`, with one image, one caption of length
one, in both SAF and SGR mode. -/
theorem continuous_ops_c7_amended_witness :
    Continuous relu
    ∧ Continuous (leakyRelu (1 / 10))
    ∧ Differentiable ℝ sigmoid
    ∧ Continuous sigmoid
    ∧ Continuous tanhR
    ∧ (∀ k : ℕ, Continuous fun x : Vec k => softmax x)
    ∧ (∀ k : ℕ, Continuous fun x : Vec k => l2normV epsNorm x)
    ∧ (∀ k : ℕ, Continuous fun x : Vec k => l1normV epsNorm x)
    ∧ (∀ m2 k : ℕ, ∀ p : Linear m2 k, Continuous fun x : Vec m2 => p.apply x)
    ∧ (∀ c2 : ℕ, ∀ p : BatchNorm c2, ∀ ch : Fin c2,
        Continuous fun x : ℝ => p.apply ch x)
    ∧ (∀ k : ℕ, ∀ p : ContrastiveLoss, Continuous fun sc : Mat k k => p.forward sc)
    ∧ Continuous (fun _ : ℝ => exampleCriterion.forward
        (EncoderSimilarity.forward exampleEncSAF
          (fun b => exampleImgEnc.forward ((fun _ : Fin 1 => (zeroMat : Mat 1 1)) b))
          exampleCapEmb))
    ∧ Continuous (fun _ : ℝ => exampleCriterion.forward
        (EncoderSimilarity.forward exampleEncSGR
          (fun b => exampleImgEnc.forward ((fun _ : Fin 1 => (zeroMat : Mat 1 1)) b))
          exampleCapEmb)) :=
  continuous_ops_c7_amended
    (fun _ : ℝ => exampleEncSAF) (fun _ => zeroSAF)
    (fun _ => exampleEncSGR) (fun _ => fun _ : Fin 1 => zeroGraph)
    (fun _ => exampleImgEnc) true
    (fun _ => fun _ : Fin 1 => (zeroMat : Mat 1 1)) (fun _ => exampleCapEmb)
    exampleCriterion
    exampleEncSAF_CF ⟨zeroLinear_CF, zeroBN_CF⟩ (fun _ => rfl)
    exampleEncSGR_CF (fun _ => ⟨zeroLinear_CF, zeroLinear_CF, zeroLinear_CF⟩)
    (fun _ => rfl)
    zeroLinear_CF (fun _ => rfl)
    continuous_const continuous_const

end SGRAFModel

end
